import Mathlib

/- Verification development for the remotestorage.js local store
   (src/indexeddb.js) and the transport helper (src/lib/getputdelete.js),
   shallowly embedded in Lean.

   Paths and object-store keys are JavaScript strings; we model them as their
   sequences of UTF-16 code units (List Nat), which is exactly the ordering
   IndexedDB uses for string keys.  The two IndexedDB object stores ("nodes"
   and "changes") are modelled as keyed record lists; a whole transaction is
   one pure function from state to state, returning Except to model a
   transaction abort (an uncaught exception in a request handler aborts the
   transaction with no observable write, and the promise rejects). -/

set_option maxRecDepth 100000

/-- A path key: the UTF-16 code units of a JavaScript string. -/
abbrev JPath := List Nat

/-- The code unit of the separator character. -/
def slash : Nat := 47

/-- Encode a string literal as a path. -/
def pth (s : String) : JPath := s.data.map Char.toNat

/-- Lookup in a keyed object store: the record whose key equals q, if any. -/
def kfind (key : α → JPath) : List α → JPath → Option α
  | [], _ => none
  | n :: ns, q => if key n = q then some n else kfind key ns q

/-- IndexedDB-style put: replace the record carrying the same key, else append. -/
def kput (key : α → JPath) : List α → α → List α
  | [], n => [n]
  | m :: ms, n => if key m = key n then n :: ms else m :: kput key ms n

/-- IndexedDB-style delete by key (keys are unique in an object store). -/
def kdel (key : α → JPath) : List α → JPath → List α
  | [], _ => []
  | m :: ms, q => if key m = q then ms else m :: kdel key ms q

/-- Lexicographic order on code-unit sequences: the IndexedDB ordering of
    string keys, and the semantics of the JavaScript < on strings. -/
def lexLt : JPath → JPath → Bool
  | [], [] => false
  | [], _ :: _ => true
  | _ :: _, [] => false
  | a :: as, b :: bs => if a < b then true else if a = b then lexLt as bs else false

/-- key.substr(0, path.length) == path : plain string-prefix test. -/
def substrEq : JPath → JPath → Bool
  | [], _ => true
  | _ :: _, [] => false
  | a :: ps, b :: ks => if a = b then substrEq ps ks else false

/-- The part of `s` the regex match /^(.*\/)([^\/]+\/?)$/ scans for the final
    segment: `s` with a single trailing slash removed, if present. -/
def coreOf (s : JPath) : JPath := if s.getLast? = some slash then s.dropLast else s

/-- The final slash-free segment of `coreOf s` (the basename without its
    optional trailing slash). -/
def segOf (s : JPath) : JPath := ((coreOf s).reverse.takeWhile (fun c => c ≠ slash)).reverse

/-- path.match(/^(.*\/)([^\/]+\/?)$/): greedy split of a path into dirname
    (ending in a slash) and basename (no internal slash, optionally one
    trailing slash); none when the regex does not match. -/
def parseParts (s : JPath) : Option (JPath × JPath) :=
  if (segOf s).length = 0 ∨ (segOf s).length = (coreOf s).length then none
  else some ((coreOf s).take ((coreOf s).length - (segOf s).length),
             segOf s ++ (if s.getLast? = some slash then [slash] else []))

namespace IndexedDB

/-- A directory aggregate map: the key set of a JS object all of whose values
    are `true`, kept in insertion order. -/
abbrev ChildMap := List JPath

/-- node[key][basename] = true : add a key to the aggregate (no-op if present). -/
def cmInsert (m : ChildMap) (b : JPath) : ChildMap := if b ∈ m then m else m ++ [b]

/-- delete node[key][basename] : remove a key from the aggregate. -/
def cmErase : ChildMap → JPath → ChildMap
  | [], _ => []
  | x :: xs, b => if x = b then xs else x :: cmErase xs b

/-- A node body: a document payload (string) or a directory aggregate. -/
inductive Body
  | doc (payload : String)
  | dir (children : ChildMap)
deriving DecidableEq

/-- A record of the "nodes" object store; fields absent on the JS object are
    `none`. -/
structure Node where
  path : JPath
  body : Option Body := none
  cached : Option ChildMap := none
  contentType : Option String := none
  revision : Option String := none
deriving DecidableEq

/-- The `key` argument of the ancestor walks: the field name, 'body' or
    'cached'. -/
inductive NsKey
  | body
  | cached
deriving DecidableEq

/-- makeNode(path) from the source: a bare record for documents, empty
    aggregates and the structured-list content type for directory paths. -/
def makeNode (p : JPath) : Node :=
  if p.getLast? = some slash then
    { path := p, body := some (.dir []), cached := some [],
      contentType := some "application/json" }
  else { path := p }

/-- node[key][basename] = true with JavaScript field semantics: the field
    being undefined throws (none, aborting the transaction); a string
    primitive silently ignores the assignment in sloppy mode; an object gets
    the key set. -/
def trySetChild (node : Node) (k : NsKey) (b : JPath) : Option Node :=
  match k with
  | .body =>
    match node.body with
    | none => none
    | some (.doc _) => some node
    | some (.dir m) => some { node with body := some (.dir (cmInsert m b)) }
  | .cached =>
    match node.cached with
    | none => none
    | some m => some { node with cached := some (cmInsert m b) }

/-- delete node[key][basename] with the same JavaScript field semantics. -/
def tryDelChild (node : Node) (k : NsKey) (b : JPath) : Option Node :=
  match k with
  | .body =>
    match node.body with
    | none => none
    | some (.doc _) => some node
    | some (.dir m) => some { node with body := some (.dir (cmErase m b)) }
  | .cached =>
    match node.cached with
    | none => none
    | some m => some { node with cached := some (cmErase m b) }

/-- Object.keys(v).length for the values a node field can hold: undefined
    throws, a string primitive enumerates its character indices, an aggregate
    its keys. -/
def jsKeysLen : Option Body → Option Nat
  | none => none
  | some (.doc s) => some s.length
  | some (.dir m) => some m.length

/-- keepDirNode(node): Object.keys(node.body).length > 0 ||
    Object.keys(node.cached).length > 0, with short-circuit evaluation. -/
def keepDirNode (node : Node) : Option Bool :=
  match jsKeysLen node.body with
  | none => none
  | some n =>
    if 0 < n then some true
    else
      match node.cached with
      | none => none
      | some m => some (0 < m.length)

/-- addToParent with explicit fuel.  Every recursive step passes the strictly
    shorter dirname, so fuel = initial path length (see `addToParent`) is
    never exhausted; the fuel-zero branch is unreachable from the wrapper. -/
def addToParentF (key : NsKey) : Nat → List Node → JPath → Option (List Node)
  | 0, _, _ => none
  | fuel + 1, nodes, p =>
    match parseParts p with
    | none => some nodes
    | some (dirname, basename) =>
      match trySetChild ((kfind (fun n => n.path) nodes dirname).getD (makeNode dirname))
          key basename with
      | none => none
      | some node =>
        let nodes1 := kput (fun n => n.path) nodes node
        if dirname = [slash] then some nodes1
        else addToParentF key fuel nodes1 dirname

/-- addToParent(nodes, path, key): load-or-create the parent directory node,
    mark the basename present in the given namespace, persist, and recurse up
    unless the parent is the root. -/
def addToParent (nodes : List Node) (p : JPath) (key : NsKey) : Option (List Node) :=
  addToParentF key p.length nodes p

/-- removeFromParent with explicit fuel (same discipline as `addToParentF`). -/
def removeFromParentF (key : NsKey) : Nat → List Node → JPath → Option (List Node)
  | 0, _, _ => none
  | fuel + 1, nodes, p =>
    match parseParts p with
    | none => some nodes
    | some (dirname, basename) =>
      match kfind (fun n => n.path) nodes dirname with
      | none => none
      | some node0 =>
        match tryDelChild node0 key basename with
        | none => none
        | some node =>
          match keepDirNode node with
          | none => none
          | some true => some (kput (fun n => n.path) nodes node)
          | some false =>
            let nodes1 := kdel (fun n => n.path) nodes dirname
            if dirname = [slash] then some nodes1
            else removeFromParentF key fuel nodes1 dirname

/-- removeFromParent(nodes, path, key): drop the basename from the parent
    directory node's namespace map; keep the node if either aggregate is
    still non-empty, otherwise delete it and recurse upward unless the parent
    is the root. -/
def removeFromParent (nodes : List Node) (p : JPath) (key : NsKey) : Option (List Node) :=
  removeFromParentF key p.length nodes p

/-- Conflict attribute block stored on a Change. -/
structure ConflictAttrs where
  localAction : Option String := none
  remoteAction : Option String := none
  resolution : Option String := none
deriving DecidableEq

/-- A record of the "changes" object store. -/
structure ChangeRec where
  path : JPath
  action : Option String := none
  conflict : Option ConflictAttrs := none
deriving DecidableEq

/-- The attribute objects passed to _recordChange in the source:
    an action field, a conflict field, or both. -/
structure ChangeAttrs where
  action : Option String := none
  conflict : Option ConflictAttrs := none
deriving DecidableEq

/-- change.path = path; for key in attributes: change[key] = attributes[key]. -/
def mergeChange (c : ChangeRec) (p : JPath) (a : ChangeAttrs) : ChangeRec :=
  { path := p,
    action := match a.action with | some x => some x | none => c.action,
    conflict := match a.conflict with | some x => some x | none => c.conflict }

/-- _recordChange(path, attributes): load the existing Change (or start an
    empty object), merge the attributes in, persist. -/
def recordChange (cs : List ChangeRec) (p : JPath) (a : ChangeAttrs) : List ChangeRec :=
  kput (fun c => c.path) cs
    (mergeChange ((kfind (fun c => c.path) cs p).getD { path := p }) p a)

/-- clearChange(path). -/
def clearChange (cs : List ChangeRec) (p : JPath) : List ChangeRec :=
  kdel (fun c => c.path) cs p

/-- changesBelow(path): the cursor opened at IDBKeyRange.lowerBound(path)
    walks the key-ordered store starting from the first key that is not below
    `path`, collecting records while cursor.key.substr(0, path.length) ==
    path, and stops at the first key that fails the prefix test. -/
def changesBelow (cs : List ChangeRec) (p : JPath) : List ChangeRec :=
  (cs.dropWhile (fun c => lexLt c.path p)).takeWhile (fun c => substrEq p c.path)

/-- setConflict(path, attributes) records the conflict block on the Change. -/
def setConflict (cs : List ChangeRec) (p : JPath) (attrs : ConflictAttrs) : List ChangeRec :=
  recordChange cs p { conflict := some attrs }

/-- The resolve capability handed out on the conflict event: an allowed
    resolution is written back through _recordChange, anything else throws
    before any write. -/
def resolveConflict (cs : List ChangeRec) (p : JPath) (attrs : ConflictAttrs)
    (resolution : String) : Except String (List ChangeRec) :=
  if resolution = "remote" ∨ resolution = "local" then
    .ok (recordChange cs p { conflict := some { attrs with resolution := some resolution } })
  else .error ("Invalid resolution: " ++ resolution)

/-- A change event as emitted on transaction completion. -/
structure ChangeEvent where
  path : JPath
  origin : String
  oldValue : Option Body := none
  newValue : Option Body := none
deriving DecidableEq

/-- The engine state: the "nodes" and "changes" object stores. -/
structure State where
  nodes : List Node
  changes : List ChangeRec
deriving DecidableEq

def emptyState : State := { nodes := [], changes := [] }

/-- put(path, body, contentType, incoming).  A directory-shaped path throws
    synchronously before the transaction is opened.  Otherwise, within one
    transaction: read the previous node, store the fresh record
    (path, contentType, body), run the addToParent walk under 'body'; on
    completion emit one change event and, unless incoming, record a PUT
    Change; an aborted walk rejects with no observable write. -/
def put (st : State) (p : JPath) (b ct : String) (incoming : Bool) :
    Except String (State × List ChangeEvent) :=
  if p.getLast? = some slash then .error "Bad: do not PUT folders"
  else
    match addToParent
        (kput (fun n => n.path) st.nodes
          { path := p, contentType := some ct, body := some (.doc b) }) p .body with
    | none => .error "transaction aborted"
    | some ns2 =>
      .ok ({ nodes := ns2,
             changes := if incoming then st.changes
                        else recordChange st.changes p { action := some "PUT" } },
           [{ path := p,
              origin := if incoming then "remote" else "window",
              oldValue := (kfind (fun n => n.path) st.nodes p).bind (fun n => n.body),
              newValue := some (.doc b) }])

/-- delete(path, incoming).  A directory-shaped path throws synchronously.
    Otherwise: read the previous node, delete the record, run the
    removeFromParent walk under 'body'; on completion emit a change event
    only if a previous node existed and, unless incoming, record a DELETE
    Change; an aborted walk rejects with no observable write. -/
def delete (st : State) (p : JPath) (incoming : Bool) :
    Except String (State × List ChangeEvent) :=
  if p.getLast? = some slash then .error "Bad: do not DELETE folders"
  else
    match removeFromParent (kdel (fun n => n.path) st.nodes p) p .body with
    | none => .error "transaction aborted"
    | some ns2 =>
      .ok ({ nodes := ns2,
             changes := if incoming then st.changes
                        else recordChange st.changes p { action := some "DELETE" } },
           match kfind (fun n => n.path) st.nodes p with
           | some old => [{ path := p,
                            origin := if incoming then "remote" else "window",
                            oldValue := old.body,
                            newValue := none }]
           | none => [])

/-- The state of a fulfilled transaction result (dummy on rejection). -/
def okState (r : Except String (State × List ChangeEvent)) : State :=
  match r with
  | .ok (s, _) => s
  | .error _ => emptyState

/-- The events of a fulfilled transaction result (empty on rejection). -/
def okEvents (r : Except String (State × List ChangeEvent)) : List ChangeEvent :=
  match r with
  | .ok (_, evs) => evs
  | .error _ => []

end IndexedDB

namespace getputdelete

/-- The JavaScript values relevant to the transport helper. -/
inductive JSVal
  | undef
  | nullv
  | str (s : String)
  | buffer (bytes : List Nat)
  | num (n : Int)
  | other
deriving DecidableEq

def isString : JSVal → Bool
  | .str _ => true
  | _ => false

def isArrayBuffer : JSVal → Bool
  | .buffer _ => true
  | _ => false

def jsTypeof : JSVal → String
  | .undef => "undefined"
  | .nullv => "object"
  | .str _ => "string"
  | .buffer _ => "object"
  | .num _ => "number"
  | .other => "object"

/-- The request handed to platform.ajax by doCall. -/
structure Request where
  method : String
  url : String
  headers : List (String × String)
  data : Option JSVal
deriving DecidableEq

/-- doCall(method, url, body, mimeType, token): the network request it
    issues (headers per the source; data only for non-GET methods). -/
def doCall (method url : String) (body : JSVal) (mimeType : Option String)
    (token : Option String) : Request :=
  { method := method
    url := url
    headers :=
      (match token with
       | some t => [("Authorization", "Bearer " ++ t)]
       | none => []) ++
      (match mimeType with
       | some mt =>
         [("Content-Type", if isArrayBuffer body then mt ++ "; charset=binary" else mt)]
       | none => [])
    data := if method = "GET" then none else some body }

/-- The synchronously observable outcome of a transport call: error values
    passed to the callback, and the network requests issued. -/
structure Outcome where
  errors : List String
  requests : List Request
deriving DecidableEq

/-- put(url, value, mimeType, token, cb): a non-string non-ArrayBuffer value
    invokes cb with an Error, but the source has no return there, so the PUT
    request is issued in every case. -/
def put (url : String) (value : JSVal) (mimeType : Option String)
    (token : Option String) : Outcome :=
  { errors :=
      if isString value || isArrayBuffer value then []
      else ["invalid value given to PUT, only strings allowed, got " ++ jsTypeof value]
    requests := [doCall "PUT" url value mimeType token] }

/-- set(url, valueStr, mimeType, token, cb): undefined issues a DELETE,
    anything else goes through put. -/
def set (url : String) (value : JSVal) (mimeType : Option String)
    (token : Option String) : Outcome :=
  match value with
  | .undef => { errors := [], requests := [doCall "DELETE" url .nullv none token] }
  | v => put url v mimeType token

end getputdelete

namespace IndexedDB

/-- Whether a transaction result fulfilled (true) or rejected (false). -/
def resultOk (r : Except String (State × List ChangeEvent)) : Bool :=
  match r with
  | .ok _ => true
  | .error _ => false

/-- The node stored by put: the fresh record the source builds. -/
def docNode (p : JPath) (b ct : String) : Node :=
  { path := p, contentType := some ct, body := some (.doc b) }

/-- Demo: a store holding a document at /a that carries a revision token. -/
def revState : State :=
  { nodes := [{ path := pth "/a", body := some (.doc "old"),
                contentType := some "t", revision := some "r1" }],
    changes := [] }

def demoPutRev : Except String (State × List ChangeEvent) :=
  put revState (pth "/a") "new" "t" false

def demoPutA : Except String (State × List ChangeEvent) :=
  put emptyState (pth "/a") "v" "t" false

def demoDelA : Except String (State × List ChangeEvent) :=
  delete (okState demoPutA) (pth "/a") false

def demoPutT : Except String (State × List ChangeEvent) :=
  put emptyState (pth "/a") "v" "t" true

def demoDelT : Except String (State × List ChangeEvent) :=
  delete (okState demoPutA) (pth "/a") true

def demoDelB : Except String (State × List ChangeEvent) :=
  delete (okState demoPutA) (pth "/b") false

def demoPutABC : Except String (State × List ChangeEvent) :=
  put emptyState (pth "a/b/c") "x" "t" false

/-- Demo: the change log of the worked example of changesBelow, in store key
    order. -/
def demoChanges : List ChangeRec :=
  [{ path := pth "a/x", action := some "PUT" },
   { path := pth "a/y/z", action := some "DELETE" },
   { path := pth "b/w", action := some "PUT" }]

/-- Demo: a root directory node whose only child is the document a. -/
def rootDemoNode : Node :=
  { path := pth "/", body := some (.dir [pth "a"]), cached := some [],
    contentType := some "application/json" }

/-- Demo: a node store holding only the root directory node. -/
def rootDemoStore : List Node := [rootDemoNode]

end IndexedDB

theorem kfind_eq_key {key : α → JPath} {ns : List α} {q : JPath} {n : α}
    (h : kfind key ns q = some n) : key n = q := by
  induction ns with
  | nil => simp [kfind] at h
  | cons m ms ih =>
    by_cases hm : key m = q
    · simp only [kfind, if_pos hm] at h
      injection h with h
      subst h
      exact hm
    · simp only [kfind, if_neg hm] at h
      exact ih h

theorem kfind_kput_self (key : α → JPath) (ns : List α) (n : α) :
    kfind key (kput key ns n) (key n) = some n := by
  induction ns with
  | nil => simp [kput, kfind]
  | cons m ms ih =>
    by_cases h : key m = key n
    · simp [kput, kfind, h]
    · simp only [kput, if_neg h, kfind]
      exact ih


theorem kfind_kput_ne (key : α → JPath) (ns : List α) (n : α) (q : JPath)
    (h : key n ≠ q) : kfind key (kput key ns n) q = kfind key ns q := by
  induction ns with
  | nil => simp [kput, kfind, h]
  | cons m ms ih =>
    by_cases h2 : key m = key n
    · simp only [kput, if_pos h2, kfind, if_neg h, if_neg (h2 ▸ h)]
    · simp only [kput, if_neg h2, kfind]
      by_cases h3 : key m = q
      · rw [if_pos h3, if_pos h3]
      · rw [if_neg h3, if_neg h3]
        exact ih

theorem kput_of_found (key : α → JPath) (ns : List α) (n : α)
    (h : kfind key ns (key n) = some n) : kput key ns n = ns := by
  induction ns with
  | nil => simp [kfind] at h
  | cons m ms ih =>
    by_cases h2 : key m = key n
    · simp only [kfind, if_pos h2] at h
      injection h with h3
      simp only [kput, if_pos h2, h3]
      simp
    · simp only [kfind, if_neg h2] at h
      simp only [kput, if_neg h2, ih h]

theorem kput_map_key_mem {key : α → JPath} {ns : List α} {n : α} {x : JPath}
    (h : x ∈ (kput key ns n).map key) : x = key n ∨ x ∈ ns.map key := by
  induction ns with
  | nil => simp [kput] at h; simp [h]
  | cons m ms ih =>
    by_cases h2 : key m = key n
    · simp only [kput, if_pos h2, List.map_cons, List.mem_cons] at h
      rcases h with h | h
      · exact .inl h
      · exact .inr (List.mem_cons_of_mem _ h)
    · simp only [kput, if_neg h2, List.map_cons, List.mem_cons] at h
      rcases h with h | h
      · exact .inr (h ▸ List.mem_cons_self _ _)
      · rcases ih h with h | h
        · exact .inl h
        · exact .inr (List.mem_cons_of_mem _ h)

theorem kput_keys_nodup {key : α → JPath} {ns : List α} (n : α)
    (h : (ns.map key).Nodup) : ((kput key ns n).map key).Nodup := by
  induction ns with
  | nil => simp [kput]
  | cons m ms ih =>
    rw [List.map_cons, List.nodup_cons] at h
    obtain ⟨hm, hms⟩ := h
    by_cases h2 : key m = key n
    · simp only [kput, if_pos h2, List.map_cons, List.nodup_cons]
      exact ⟨h2 ▸ hm, hms⟩
    · simp only [kput, if_neg h2, List.map_cons, List.nodup_cons]
      refine ⟨fun hmem => ?_, ih hms⟩
      rcases kput_map_key_mem hmem with h3 | h3
      · exact h2 h3
      · exact hm h3

theorem kput_countP (key : α → JPath) (ns : List α) (n : α) (q : JPath)
    (hq : key n = q) (hnd : (ns.map key).Nodup) :
    (kput key ns n).countP (fun x => decide (key x = q)) = 1 := by
  induction ns with
  | nil => simp [kput, List.countP_cons, hq]
  | cons m ms ih =>
    rw [List.map_cons, List.nodup_cons] at hnd
    obtain ⟨hm, hms⟩ := hnd
    by_cases h2 : key m = key n
    · have hzero : ms.countP (fun x => decide (key x = q)) = 0 := by
        rw [List.countP_eq_zero]
        intro a ha
        simp only [decide_eq_true_eq]
        intro hc
        exact hm (by rw [h2, hq, ← hc]; exact List.mem_map_of_mem key ha)
      simp only [kput, if_pos h2]
      simp [List.countP_cons, hzero, hq]
    · simp only [kput, if_neg h2, List.countP_cons, ih hms]
      have : ¬(key m = q) := fun hc => h2 (by rw [hc, ← hq])
      simp [this]

theorem segOf_length_le (s : JPath) : (segOf s).length ≤ (coreOf s).length := by
  unfold segOf
  rw [List.length_reverse]
  calc (List.takeWhile (fun c => c ≠ slash) (coreOf s).reverse).length
      ≤ (coreOf s).reverse.length := (List.takeWhile_sublist _).length_le
    _ = (coreOf s).length := List.length_reverse _

theorem coreOf_length_le (s : JPath) : (coreOf s).length ≤ s.length := by
  unfold coreOf
  split
  · rw [List.length_dropLast]
    omega
  · exact Nat.le_refl _

theorem parseParts_length {s d b : JPath} (h : parseParts s = some (d, b)) :
    d.length < s.length := by
  unfold parseParts at h
  split at h
  · exact absurd h (by simp)
  · rename_i hcond
    push_neg at hcond
    obtain ⟨h0, _⟩ := hcond
    have h1 : (coreOf s).take ((coreOf s).length - (segOf s).length) = d := by
      have := congrArg Prod.fst (Option.some.inj h)
      simpa using this
    have h3 := segOf_length_le s
    have h4 := coreOf_length_le s
    rw [← h1, List.length_take]
    have h5 : (segOf s).length ≠ 0 := h0
    omega

theorem lexLt_cons_iff {x y : Nat} {xs ys : JPath} :
    lexLt (x :: xs) (y :: ys) = true ↔ (x < y ∨ (x = y ∧ lexLt xs ys = true)) := by
  simp only [lexLt]
  split
  · rename_i h
    simp [h]
  · rename_i h
    split
    · rename_i h2
      simp [h, h2]
    · rename_i h2
      simp [h, h2]

theorem lexLt_trans {a b c : JPath} (hab : lexLt a b = true) (hbc : lexLt b c = true) :
    lexLt a c = true := by
  induction a generalizing b c with
  | nil =>
    cases c with
    | nil =>
      cases b with
      | nil => simp [lexLt] at hab
      | cons y ys => simp [lexLt] at hbc
    | cons z zs => simp [lexLt]
  | cons x xs ih =>
    cases b with
    | nil => simp [lexLt] at hab
    | cons y ys =>
      cases c with
      | nil => simp [lexLt] at hbc
      | cons z zs =>
        rw [lexLt_cons_iff] at hab hbc ⊢
        rcases hab with h1 | ⟨h1, h1t⟩
        · rcases hbc with h2 | ⟨h2, _⟩
          · exact .inl (Nat.lt_trans h1 h2)
          · exact .inl (h2 ▸ h1)
        · rcases hbc with h2 | ⟨h2, h2t⟩
          · exact .inl (h1 ▸ h2)
          · exact .inr ⟨h1.trans h2, ih h1t h2t⟩

theorem lexLt_asymm {a b : JPath} (h : lexLt a b = true) : lexLt b a = false := by
  induction a generalizing b with
  | nil =>
    cases b with
    | nil => simp [lexLt] at h
    | cons y ys => simp [lexLt]
  | cons x xs ih =>
    cases b with
    | nil => simp [lexLt] at h
    | cons y ys =>
      rw [lexLt_cons_iff] at h
      rcases h with h | ⟨h, ht⟩
      · simp only [lexLt]
        rw [if_neg (by omega), if_neg (by omega)]
      · subst h
        simp only [lexLt]
        rw [if_neg (by omega)]
        simpa using ih ht

theorem strPrefix_not_lt {p k : JPath} (h : substrEq p k = true) : lexLt k p = false := by
  induction p generalizing k with
  | nil =>
    cases k with
    | nil => simp [lexLt]
    | cons b ks => simp [lexLt]
  | cons a ps ih =>
    cases k with
    | nil => simp [substrEq] at h
    | cons b ks =>
      simp only [substrEq] at h
      split at h
      · rename_i hab
        subst hab
        simp only [lexLt]
        rw [if_neg (by omega)]
        simpa using ih h
      · simp at h

theorem strPrefix_sep {p k1 k2 : JPath} (h1 : substrEq p k1 = true)
    (h2 : substrEq p k2 = false) (h3 : lexLt k2 p = false) : lexLt k1 k2 = true := by
  induction p generalizing k1 k2 with
  | nil => simp [substrEq] at h2
  | cons a ps ih =>
    cases k1 with
    | nil => simp [substrEq] at h1
    | cons b1 ks1 =>
      simp only [substrEq] at h1
      split at h1
      case isFalse => simp at h1
      case isTrue hab =>
        subst hab
        cases k2 with
        | nil => simp [lexLt] at h3
        | cons b2 ks2 =>
          simp only [lexLt] at h3
          by_cases hlt : b2 < a
          · rw [if_pos hlt] at h3
            simp at h3
          · rw [if_neg hlt] at h3
            by_cases heq : b2 = a
            · subst heq
              rw [if_pos rfl] at h3
              simp only [substrEq, if_pos rfl] at h2
              rw [lexLt_cons_iff]
              exact .inr ⟨rfl, ih h1 h2 h3⟩
            · rw [lexLt_cons_iff]
              exact .inl (by omega)

namespace IndexedDB

theorem takeWhile_eq_filter_of_ge {p : JPath} :
    ∀ (cs : List ChangeRec),
    (∀ c ∈ cs, lexLt c.path p = false) →
    List.Pairwise (fun a b => lexLt a.path b.path = true) cs →
    cs.takeWhile (fun c => substrEq p c.path) = cs.filter (fun c => substrEq p c.path) := by
  intro cs
  induction cs with
  | nil => intro _ _; rfl
  | cons c cs' ih =>
    intro hge hpw
    rw [List.pairwise_cons] at hpw
    obtain ⟨hcall, hpw'⟩ := hpw
    by_cases hc : substrEq p c.path = true
    · rw [List.takeWhile_cons, List.filter_cons, if_pos hc, if_pos hc]
      rw [ih (fun d hd => hge d (List.mem_cons_of_mem _ hd)) hpw']
    · have hcf : substrEq p c.path = false := by
        cases hx : substrEq p c.path
        · rfl
        · exact absurd hx hc
      rw [List.takeWhile_cons, List.filter_cons, if_neg hc, if_neg hc]
      have hnil : cs'.filter (fun c => substrEq p c.path) = [] := by
        rw [List.filter_eq_nil_iff]
        intro d hd
        simp only [Bool.not_eq_true]
        cases hdp : substrEq p d.path
        · rfl
        · exfalso
          have h1 := strPrefix_sep hdp hcf (hge c (List.mem_cons_self _ _))
          have h2 := lexLt_asymm (hcall d hd)
          rw [h1] at h2
          exact Bool.noConfusion h2
      rw [hnil]

theorem changesBelow_eq_filter_aux (cs : List ChangeRec) (p : JPath)
    (h : List.Pairwise (fun a b => lexLt a.path b.path = true) cs) :
    changesBelow cs p = cs.filter (fun c => substrEq p c.path) := by
  induction cs with
  | nil => rfl
  | cons c cs' ih =>
    rw [List.pairwise_cons] at h
    obtain ⟨hcall, hpw'⟩ := h
    by_cases hlt : lexLt c.path p = true
    · have hcf : substrEq p c.path = false := by
        cases hx : substrEq p c.path
        · rfl
        · rw [strPrefix_not_lt hx] at hlt
          exact Bool.noConfusion hlt
      unfold changesBelow
      rw [List.dropWhile_cons, if_pos hlt, List.filter_cons, if_neg (by rw [hcf]; exact Bool.false_ne_true)]
      exact ih hpw'
    · have hcg : lexLt c.path p = false := by
        cases hx : lexLt c.path p
        · rfl
        · exact absurd hx hlt
      unfold changesBelow
      rw [List.dropWhile_cons, if_neg hlt]
      apply takeWhile_eq_filter_of_ge
      · intro d hd
        rcases List.mem_cons.mp hd with heq | hd'
        · rw [heq]; exact hcg
        · cases hx : lexLt d.path p
          · rfl
          · exfalso
            have := lexLt_trans (hcall d hd') hx
            rw [this] at hcg
            exact Bool.noConfusion hcg
      · exact List.pairwise_cons.mpr ⟨hcall, hpw'⟩

end IndexedDB

namespace IndexedDB

theorem makeNode_path (p : JPath) : (makeNode p).path = p := by
  unfold makeNode
  split <;> rfl

theorem trySetChild_path {node node' : Node} {k : NsKey} {b : JPath}
    (h : trySetChild node k b = some node') : node'.path = node.path := by
  unfold trySetChild at h
  split at h <;> split at h <;>
    first
      | exact Option.noConfusion h
      | (injection h with h2; subst h2; rfl)

theorem tryDelChild_path {node node' : Node} {k : NsKey} {b : JPath}
    (h : tryDelChild node k b = some node') : node'.path = node.path := by
  unfold tryDelChild at h
  split at h <;> split at h <;>
    first
      | exact Option.noConfusion h
      | (injection h with h2; subst h2; rfl)

theorem cmInsert_mem (m : ChildMap) (b : JPath) : b ∈ cmInsert m b := by
  unfold cmInsert
  split
  · assumption
  · simp

theorem cmInsert_of_mem {m : ChildMap} {b : JPath} (h : b ∈ m) : cmInsert m b = m := by
  unfold cmInsert
  rw [if_pos h]

theorem cmInsert_idem (m : ChildMap) (b : JPath) :
    cmInsert (cmInsert m b) b = cmInsert m b :=
  cmInsert_of_mem (cmInsert_mem m b)

theorem trySetChild_idem {node node' : Node} {k : NsKey} {b : JPath}
    (h : trySetChild node k b = some node') : trySetChild node' k b = some node' := by
  cases k with
  | body =>
    cases hb : node.body with
    | none => simp [trySetChild, hb] at h
    | some bb =>
      cases bb with
      | doc s =>
        simp only [trySetChild, hb, Option.some.injEq] at h
        subst h
        simp [trySetChild, hb]
      | dir m =>
        simp only [trySetChild, hb, Option.some.injEq] at h
        subst h
        simp [trySetChild, cmInsert_idem]
  | cached =>
    cases hc : node.cached with
    | none => simp [trySetChild, hc] at h
    | some m =>
      simp only [trySetChild, hc, Option.some.injEq] at h
      subst h
      simp [trySetChild, cmInsert_idem]

theorem addToParentF_preserves {k : NsKey} :
    ∀ (fuel : Nat) (ns ns' : List Node) (p q : JPath),
    addToParentF k fuel ns p = some ns' → p.length ≤ q.length →
    kfind (fun n => n.path) ns' q = kfind (fun n => n.path) ns q := by
  intro fuel
  induction fuel with
  | zero =>
    intro ns ns' p q h _
    exact absurd h (by simp [addToParentF])
  | succ f ih =>
    intro ns ns' p q h hlen
    rw [addToParentF] at h
    split at h
    · injection h with h
      rw [h]
    · rename_i d b hp
      split at h
      · exact absurd h (by simp)
      · rename_i node hset
        simp only [] at h
        have hdl : d.length < p.length := parseParts_length hp
        have hnodepath : node.path = d := by
          rw [trySetChild_path hset]
          cases hf : kfind (fun n => n.path) ns d with
          | none => simp [hf, makeNode_path]
          | some n0 => simpa [hf] using kfind_eq_key hf
        have hne : node.path ≠ q := by
          rw [hnodepath]
          intro hc
          rw [hc] at hdl
          omega
        by_cases hd : d = [slash]
        · rw [if_pos hd] at h
          injection h with h
          rw [← h]
          exact kfind_kput_ne _ _ _ _ hne
        · rw [if_neg hd] at h
          have := ih _ _ _ q h (by omega)
          rw [this]
          exact kfind_kput_ne _ _ _ _ hne

theorem addToParentF_idem {k : NsKey} :
    ∀ (fuel : Nat) (ns ns' : List Node) (p : JPath),
    addToParentF k fuel ns p = some ns' → addToParentF k fuel ns' p = some ns' := by
  intro fuel
  induction fuel with
  | zero =>
    intro ns ns' p h
    exact absurd h (by simp [addToParentF])
  | succ f ih =>
    intro ns ns' p h
    rw [addToParentF] at h ⊢
    split at h
    · rename_i hp
      injection h with h
      subst h
      simp only [hp]
    · rename_i d b hp
      split at h
      · exact absurd h (by simp)
      · rename_i node hset
        simp only [] at h
        have hnodepath : node.path = d := by
          rw [trySetChild_path hset]
          cases hf : kfind (fun n => n.path) ns d with
          | none => simp [hf, makeNode_path]
          | some n0 => simpa [hf] using kfind_eq_key hf
        by_cases hd : d = [slash]
        · rw [if_pos hd] at h
          injection h with h
          have hf2 : kfind (fun n => n.path) ns' d = some node := by
            rw [← h, ← hnodepath]
            exact kfind_kput_self _ _ _
          have hput : kput (fun n => n.path) ns' node = ns' :=
            kput_of_found _ _ _ (hnodepath.symm ▸ hf2)
          simp only [hp, hf2, Option.getD_some, trySetChild_idem hset, if_pos hd, hput]
        · rw [if_neg hd] at h
          have hf2 : kfind (fun n => n.path) ns' d = some node := by
            rw [addToParentF_preserves f _ _ d d h (Nat.le_refl _), ← hnodepath]
            exact kfind_kput_self _ _ _
          have hput : kput (fun n => n.path) ns' node = ns' :=
            kput_of_found _ _ _ (hnodepath.symm ▸ hf2)
          simp only [hp, hf2, Option.getD_some, trySetChild_idem hset, if_neg hd, hput]
          exact ih _ _ _ h

theorem mergeChange_path (c : ChangeRec) (p : JPath) (a : ChangeAttrs) :
    (mergeChange c p a).path = p := rfl

theorem mergeChange_idem (c : ChangeRec) (p : JPath) (a : ChangeAttrs) :
    mergeChange (mergeChange c p a) p a = mergeChange c p a := by
  unfold mergeChange
  cases ha : a.action <;> cases hc : a.conflict <;> simp [ha, hc]

theorem kfind_recordChange_self (cs : List ChangeRec) (p : JPath) (a : ChangeAttrs) :
    kfind (fun c => c.path) (recordChange cs p a) p =
      some (mergeChange ((kfind (fun c => c.path) cs p).getD { path := p }) p a) := by
  unfold recordChange
  have := kfind_kput_self (fun c : ChangeRec => c.path) cs
    (mergeChange ((kfind (fun c => c.path) cs p).getD { path := p }) p a)
  simpa [mergeChange_path] using this

theorem recordChange_idem (cs : List ChangeRec) (p : JPath) (a : ChangeAttrs) :
    recordChange (recordChange cs p a) p a = recordChange cs p a := by
  conv_lhs => rw [recordChange]
  rw [kfind_recordChange_self]
  simp only [Option.getD_some]
  rw [mergeChange_idem]
  apply kput_of_found
  have := kfind_recordChange_self cs p a
  simpa [mergeChange_path] using this

end IndexedDB

namespace IndexedDB

theorem put_ok_elim {st : State} {p : JPath} {b ct : String} {inc : Bool} {st' : State}
    {evs : List ChangeEvent} (h : put st p b ct inc = .ok (st', evs)) :
    ¬(p.getLast? = some slash) ∧
    ∃ ns2,
      addToParent (kput (fun n => n.path) st.nodes
        { path := p, contentType := some ct, body := some (.doc b) }) p .body = some ns2 ∧
      st' = { nodes := ns2,
              changes := if inc then st.changes
                         else recordChange st.changes p { action := some "PUT" } } ∧
      evs = [{ path := p, origin := if inc then "remote" else "window",
               oldValue := (kfind (fun n => n.path) st.nodes p).bind (fun n => n.body),
               newValue := some (.doc b) }] := by
  unfold put at h
  split at h
  · exact absurd h (by simp)
  · rename_i hdir
    split at h
    · exact absurd h (by simp)
    · rename_i ns2 hadd
      injection h with h
      injection h with h1 h2
      exact ⟨hdir, ns2, hadd, h1.symm, h2.symm⟩

theorem put_ok_intro {st : State} {p : JPath} {b ct : String} {inc : Bool} {ns2 : List Node}
    (hdir : ¬(p.getLast? = some slash))
    (hadd : addToParent (kput (fun n => n.path) st.nodes
      { path := p, contentType := some ct, body := some (.doc b) }) p .body = some ns2) :
    put st p b ct inc =
      .ok ({ nodes := ns2,
             changes := if inc then st.changes
                        else recordChange st.changes p { action := some "PUT" } },
           [{ path := p, origin := if inc then "remote" else "window",
              oldValue := (kfind (fun n => n.path) st.nodes p).bind (fun n => n.body),
              newValue := some (.doc b) }]) := by
  unfold put
  rw [if_neg hdir]
  simp only [hadd]

theorem delete_ok_elim {st : State} {p : JPath} {inc : Bool} {st' : State}
    {evs : List ChangeEvent} (h : delete st p inc = .ok (st', evs)) :
    ¬(p.getLast? = some slash) ∧
    ∃ ns2,
      removeFromParent (kdel (fun n => n.path) st.nodes p) p .body = some ns2 ∧
      st' = { nodes := ns2,
              changes := if inc then st.changes
                         else recordChange st.changes p { action := some "DELETE" } } ∧
      evs = (match kfind (fun n => n.path) st.nodes p with
             | some old => [{ path := p, origin := if inc then "remote" else "window",
                              oldValue := old.body, newValue := none }]
             | none => []) := by
  unfold delete at h
  split at h
  · exact absurd h (by simp)
  · rename_i hdir
    split at h
    · exact absurd h (by simp)
    · rename_i ns2 hrem
      injection h with h
      injection h with h1 h2
      exact ⟨hdir, ns2, hrem, h1.symm, h2.symm⟩

theorem kfind_after_put {st : State} {p : JPath} {b ct : String} {inc : Bool} {st' : State}
    {evs : List ChangeEvent} (h : put st p b ct inc = .ok (st', evs)) :
    kfind (fun n => n.path) st'.nodes p =
      some { path := p, contentType := some ct, body := some (.doc b) } := by
  obtain ⟨_, ns2, hadd, h1, _⟩ := put_ok_elim h
  subst h1
  unfold addToParent at hadd
  rw [addToParentF_preserves _ _ _ p p hadd (Nat.le_refl _)]
  exact kfind_kput_self (fun n => n.path)
    st.nodes { path := p, contentType := some ct, body := some (.doc b) }

end IndexedDB

namespace IndexedDB

/-- Claim C5: for every directory-shaped path (a path ending in a slash),
    put and delete fail synchronously — the guard throws before the
    transaction is opened, the call returns the thrown error and produces no
    new state, so both the node store and the change log are untouched. -/
theorem claim_C5_dir_path_rejected (st : State) (p : JPath) (b ct : String)
    (incoming : Bool) (h : p.getLast? = some slash) :
    put st p b ct incoming = .error "Bad: do not PUT folders" ∧
    delete st p incoming = .error "Bad: do not DELETE folders" := by
  refine ⟨?_, ?_⟩
  · unfold put
    rw [if_pos h]
  · unfold delete
    rw [if_pos h]

/-- Witness for C5 at the concrete folder path a/. -/
theorem claim_C5_witness :
    put emptyState (pth "a/") "b" "c" false = .error "Bad: do not PUT folders" ∧
    delete emptyState (pth "a/") false = .error "Bad: do not DELETE folders" :=
  claim_C5_dir_path_rejected emptyState (pth "a/") "b" "c" false (by decide)

/-- Claim C1 (amended): put stores a fresh record holding only path, body and
    contentType, so after every successful put the node's revision is unset —
    a previously stored revision token is dropped, not preserved. -/
theorem claim_C1_put_unsets_revision (st : State) (p : JPath) (b ct : String)
    (incoming : Bool) (st' : State) (evs : List ChangeEvent)
    (h : put st p b ct incoming = .ok (st', evs)) :
    kfind (fun n => n.path) st'.nodes p =
      some { path := p, body := some (.doc b), cached := none,
             contentType := some ct, revision := none } :=
  kfind_after_put h

/-- Counterexample to C1 as stated: the node at /a carries revision r1; a
    successful put of a new body leaves the stored revision unset instead of
    keeping r1. -/
theorem claim_C1_cex :
    resultOk demoPutRev = true ∧
    (kfind (fun n => n.path) revState.nodes (pth "/a")).bind (fun n => n.revision) =
      some "r1" ∧
    (kfind (fun n => n.path) (okState demoPutRev).nodes (pth "/a")).bind
      (fun n => n.revision) = none := by
  decide

/-- Witness for the amended C1 on the concrete store with a revision. -/
theorem claim_C1_witness :
    kfind (fun n => n.path) (okState demoPutRev).nodes (pth "/a") =
      some { path := pth "/a", body := some (.doc "new"), cached := none,
             contentType := some "t", revision := none } :=
  claim_C1_put_unsets_revision revState (pth "/a") "new" "t" false
    (okState demoPutRev) (okEvents demoPutRev) (by rfl)

/-- Claim C10 (amended): deleting a document path at which no node exists
    emits no change event, still records a DELETE Change and fulfills with
    200 — provided the transaction completes; when the ancestor walk throws
    (parent directory node missing, as on an empty store) the transaction
    aborts and the promise rejects with nothing recorded (counterexample
    below). -/
theorem claim_C10_delete_absent (st : State) (p : JPath) (st' : State)
    (evs : List ChangeEvent)
    (habsent : kfind (fun n => n.path) st.nodes p = none)
    (h : delete st p false = .ok (st', evs)) :
    evs = [] ∧
    (kfind (fun c => c.path) st'.changes p).bind (fun c => c.action) = some "DELETE" := by
  obtain ⟨_, ns2, _, h1, h2⟩ := delete_ok_elim h
  subst h1
  constructor
  · rw [h2, habsent]
  · show (kfind (fun c => c.path) (recordChange st.changes p { action := some "DELETE" }) p).bind
      (fun c => c.action) = some "DELETE"
    rw [kfind_recordChange_self]
    rfl

/-- Counterexample to C10 as stated: on an empty store no node exists at /a,
    yet delete rejects (the walk hits the missing parent and the transaction
    aborts) instead of recording a Change and fulfilling with 200. -/
theorem claim_C10_cex :
    kfind (fun n => n.path) emptyState.nodes (pth "/a") = none ∧
    resultOk (delete emptyState (pth "/a") false) = false := by
  decide

/-- Witness for the amended C10: /b is absent while its parent directory
    exists, so the delete fulfills, emits nothing and records the Change. -/
theorem claim_C10_witness :
    okEvents demoDelB = [] ∧
    (kfind (fun c => c.path) (okState demoDelB).changes (pth "/b")).bind
      (fun c => c.action) = some "DELETE" :=
  claim_C10_delete_absent (okState demoPutA) (pth "/b") (okState demoDelB)
    (okEvents demoDelB) (by decide) (by rfl)

/-- Claim C4 (amended): with incoming true no Change is recorded and every
    emitted notification carries origin "remote"; with incoming false a PUT
    or DELETE Change is recorded and every emitted notification carries
    origin "window" — not "local" as the claim stated. -/
theorem claim_C4_incoming_semantics (st : State) (p : JPath) (b ct : String)
    (st' : State) (evs : List ChangeEvent) :
    (put st p b ct true = .ok (st', evs) →
      st'.changes = st.changes ∧ evs.all (fun e => e.origin == "remote") = true) ∧
    (put st p b ct false = .ok (st', evs) →
      (kfind (fun c => c.path) st'.changes p).bind (fun c => c.action) = some "PUT" ∧
      evs.all (fun e => e.origin == "window") = true) ∧
    (delete st p true = .ok (st', evs) →
      st'.changes = st.changes ∧ evs.all (fun e => e.origin == "remote") = true) ∧
    (delete st p false = .ok (st', evs) →
      (kfind (fun c => c.path) st'.changes p).bind (fun c => c.action) = some "DELETE" ∧
      evs.all (fun e => e.origin == "window") = true) := by
  refine ⟨?_, ?_, ?_, ?_⟩
  · intro h
    obtain ⟨_, ns2, _, h1, h2⟩ := put_ok_elim h
    subst h1
    exact ⟨rfl, by rw [h2]; rfl⟩
  · intro h
    obtain ⟨_, ns2, _, h1, h2⟩ := put_ok_elim h
    subst h1
    constructor
    · show (kfind (fun c => c.path) (recordChange st.changes p { action := some "PUT" }) p).bind
        (fun c => c.action) = some "PUT"
      rw [kfind_recordChange_self]
      rfl
    · rw [h2]
      rfl
  · intro h
    obtain ⟨_, ns2, _, h1, h2⟩ := delete_ok_elim h
    subst h1
    refine ⟨rfl, ?_⟩
    rw [h2]
    cases kfind (fun n => n.path) st.nodes p <;> rfl
  · intro h
    obtain ⟨_, ns2, _, h1, h2⟩ := delete_ok_elim h
    subst h1
    constructor
    · show (kfind (fun c => c.path) (recordChange st.changes p { action := some "DELETE" }) p).bind
        (fun c => c.action) = some "DELETE"
      rw [kfind_recordChange_self]
      rfl
    · rw [h2]
      cases kfind (fun n => n.path) st.nodes p <;> rfl

/-- Counterexample to C4 as stated: a non-incoming put emits origin "window",
    not "local". -/
theorem claim_C4_cex :
    resultOk demoPutA = true ∧
    (okEvents demoPutA).map (fun e => e.origin) = ["window"] ∧
    ("window" : String) ≠ "local" := by
  decide

/-- Witness for the amended C4 at concrete puts and deletes of /a. -/
theorem claim_C4_witness :
    ((okState demoPutT).changes = emptyState.changes ∧
      (okEvents demoPutT).all (fun e => e.origin == "remote") = true) ∧
    ((kfind (fun c => c.path) (okState demoPutA).changes (pth "/a")).bind
        (fun c => c.action) = some "PUT" ∧
      (okEvents demoPutA).all (fun e => e.origin == "window") = true) ∧
    ((okState demoDelT).changes = (okState demoPutA).changes ∧
      (okEvents demoDelT).all (fun e => e.origin == "remote") = true) ∧
    ((kfind (fun c => c.path) (okState demoDelA).changes (pth "/a")).bind
        (fun c => c.action) = some "DELETE" ∧
      (okEvents demoDelA).all (fun e => e.origin == "window") = true) := by
  refine ⟨?_, ?_, ?_, ?_⟩
  · exact (claim_C4_incoming_semantics emptyState (pth "/a") "v" "t"
      (okState demoPutT) (okEvents demoPutT)).1 (by rfl)
  · exact (claim_C4_incoming_semantics emptyState (pth "/a") "v" "t"
      (okState demoPutA) (okEvents demoPutA)).2.1 (by rfl)
  · exact (claim_C4_incoming_semantics (okState demoPutA) (pth "/a") "v" "t"
      (okState demoDelT) (okEvents demoDelT)).2.2.1 (by rfl)
  · exact (claim_C4_incoming_semantics (okState demoPutA) (pth "/a") "v" "t"
      (okState demoDelA) (okEvents demoDelA)).2.2.2 (by rfl)

end IndexedDB

namespace IndexedDB

/-- Claim C2 (amended): the ancestor walk may remove emptied ancestor
    directory nodes including the node stored at the root key itself: when the
    root directory node's body and cached maps both become empty after
    removing the child entry, the walk deletes the root node and stops there
    (the dirname-is-root guard only stops further recursion, not the
    deletion); when either map stays non-empty the updated root node is
    re-put and the walk stops without deleting anything further. -/
theorem claim_C2_root_behavior (ns : List Node) (p b : JPath) (node : Node)
    (m mc : ChildMap)
    (hp : parseParts p = some ([slash], b))
    (hfind : kfind (fun n => n.path) ns [slash] = some node)
    (hbody : node.body = some (.dir m))
    (hcached : node.cached = some mc) :
    (¬(cmErase m b = [] ∧ mc = []) →
      removeFromParent ns p .body =
        some (kput (fun n => n.path) ns { node with body := some (.dir (cmErase m b)) })) ∧
    ((cmErase m b = [] ∧ mc = []) →
      removeFromParent ns p .body = some (kdel (fun n => n.path) ns [slash])) := by
  obtain ⟨len, hplen⟩ : ∃ l, p.length = l + 1 := by
    cases p with
    | nil =>
      have hnone : parseParts ([] : JPath) = none := by decide
      rw [hnone] at hp
      exact Option.noConfusion hp
    | cons c cs => exact ⟨cs.length, rfl⟩
  have hnode' : tryDelChild node .body b =
      some { node with body := some (.dir (cmErase m b)) } := by
    simp [tryDelChild, hbody]
  have hstep : ∀ keepv : Bool,
      keepDirNode { node with body := some (.dir (cmErase m b)) } = some keepv →
      removeFromParent ns p .body =
        (if keepv then
          some (kput (fun n => n.path) ns { node with body := some (.dir (cmErase m b)) })
         else some (kdel (fun n => n.path) ns [slash])) := by
    intro keepv hkeep
    unfold removeFromParent
    rw [hplen, removeFromParentF]
    simp only [hp, hfind, hnode', hkeep]
    cases keepv
    · simp
    · simp
  constructor
  · intro hnot
    have hkeep : keepDirNode { node with body := some (.dir (cmErase m b)) } = some true := by
      by_cases he : cmErase m b = []
      · have hmc : mc ≠ [] := fun hx => hnot ⟨he, hx⟩
        simp [keepDirNode, jsKeysLen, hcached, he, List.length_pos, hmc]
      · simp [keepDirNode, jsKeysLen, hcached, List.length_pos, he]
    have := hstep true hkeep
    simpa using this
  · intro hempty
    obtain ⟨he, hmc⟩ := hempty
    have hkeep : keepDirNode { node with body := some (.dir (cmErase m b)) } = some false := by
      simp [keepDirNode, jsKeysLen, hcached, he, hmc]
    have := hstep false hkeep
    simpa using this

/-- Counterexample to C2 as stated: after put of /a the root node exists;
    deleting /a empties the root aggregates and the walk deletes the node
    stored at the root key. -/
theorem claim_C2_cex :
    resultOk demoPutA = true ∧
    (kfind (fun n => n.path) (okState demoPutA).nodes (pth "/")).isSome = true ∧
    resultOk demoDelA = true ∧
    kfind (fun n => n.path) (okState demoDelA).nodes (pth "/") = none := by
  decide

/-- Witness for the amended C2: removing the last child of the root deletes
    the root node and the walk stops there. -/
theorem claim_C2_witness :
    removeFromParent rootDemoStore (pth "/a") .body =
      some (kdel (fun n => n.path) rootDemoStore [slash]) :=
  (claim_C2_root_behavior rootDemoStore (pth "/a") (pth "a") rootDemoNode
    [pth "a"] [] (by decide) (by decide) (by rfl) (by rfl)).2 ⟨by decide, rfl⟩

/-- Claim C7: put is idempotent — repeating an identical put returns success
    with the state unchanged (so in particular every directory node's body
    and cached maps are unchanged), and the first write of a/b/c creates the
    directory nodes a/ and a/b/ with the correct child entries. -/
theorem claim_C7_put_idempotent :
    (∀ (st : State) (p : JPath) (b ct : String) (incoming : Bool) (st1 : State)
       (evs1 : List ChangeEvent),
       put st p b ct incoming = .ok (st1, evs1) →
       (put st1 p b ct incoming).map (fun r => r.1) = .ok st1) ∧
    kfind (fun n => n.path) (okState demoPutABC).nodes (pth "a/") =
      some { path := pth "a/", body := some (.dir [pth "b/"]), cached := some [],
             contentType := some "application/json", revision := none } ∧
    kfind (fun n => n.path) (okState demoPutABC).nodes (pth "a/b/") =
      some { path := pth "a/b/", body := some (.dir [pth "c"]), cached := some [],
             contentType := some "application/json", revision := none } := by
  refine ⟨?_, by decide, by decide⟩
  intro st p b ct inc st1 evs1 h
  obtain ⟨hdir, ns2, hadd, h1, h2⟩ := put_ok_elim h
  subst h1
  unfold addToParent at hadd
  have hidem := addToParentF_idem p.length _ _ p hadd
  have hfind1 : kfind (fun n => n.path) ns2 p =
      some { path := p, contentType := some ct, body := some (.doc b) } :=
    kfind_after_put h
  have hkput : kput (fun n => n.path) ns2
      { path := p, contentType := some ct, body := some (.doc b) } = ns2 :=
    kput_of_found _ _ _ hfind1
  have hadd2 : addToParent (kput (fun n => n.path) ns2
      { path := p, contentType := some ct, body := some (.doc b) }) p .body = some ns2 := by
    rw [hkput]
    unfold addToParent
    exact hidem
  cases inc with
  | true =>
    rw [put_ok_intro hdir hadd2]
    rfl
  | false =>
    rw [put_ok_intro hdir hadd2]
    have hch := recordChange_idem st.changes p { action := some "PUT" }
    exact congrArg
      (fun c => (Except.ok { nodes := ns2, changes := c } : Except String State)) hch

/-- Witness for C7: repeating the identical put of a/b/c succeeds and leaves
    the state unchanged. -/
theorem claim_C7_witness :
    (put (okState demoPutABC) (pth "a/b/c") "x" "t" false).map (fun r => r.1) =
      .ok (okState demoPutABC) :=
  claim_C7_put_idempotent.1 emptyState (pth "a/b/c") "x" "t" false
    (okState demoPutABC) (okEvents demoPutABC) (by rfl)

/-- Claim C8: two recordChange calls on the same path leave exactly one
    Change record there; fields named in the second attribute set take its
    values, fields named only in the first keep the first call's values. -/
theorem claim_C8_recordChange_merges (cs : List ChangeRec) (p : JPath)
    (a1 a2 : ChangeAttrs) (hnd : (cs.map (fun c => c.path)).Nodup) :
    (recordChange (recordChange cs p a1) p a2).countP
      (fun c => decide (c.path = p)) = 1 ∧
    (∀ v, a2.action = some v →
      (kfind (fun c => c.path) (recordChange (recordChange cs p a1) p a2) p).bind
        (fun c => c.action) = some v) ∧
    (∀ v, a2.action = none → a1.action = some v →
      (kfind (fun c => c.path) (recordChange (recordChange cs p a1) p a2) p).bind
        (fun c => c.action) = some v) ∧
    (∀ v, a2.conflict = some v →
      (kfind (fun c => c.path) (recordChange (recordChange cs p a1) p a2) p).bind
        (fun c => c.conflict) = some v) ∧
    (∀ v, a2.conflict = none → a1.conflict = some v →
      (kfind (fun c => c.path) (recordChange (recordChange cs p a1) p a2) p).bind
        (fun c => c.conflict) = some v) := by
  have hfind2 : kfind (fun c => c.path) (recordChange (recordChange cs p a1) p a2) p =
      some (mergeChange
        (mergeChange ((kfind (fun c => c.path) cs p).getD { path := p }) p a1) p a2) := by
    rw [kfind_recordChange_self, kfind_recordChange_self, Option.getD_some]
  refine ⟨?_, ?_, ?_, ?_, ?_⟩
  · conv_lhs => rw [recordChange, recordChange]
    exact kput_countP _ _ _ p rfl (kput_keys_nodup _ hnd)
  · intro v hv
    rw [hfind2]
    simp [mergeChange, hv]
  · intro v hv2 hv1
    rw [hfind2]
    simp [mergeChange, hv2, hv1]
  · intro v hv
    rw [hfind2]
    simp [mergeChange, hv]
  · intro v hv2 hv1
    rw [hfind2]
    simp [mergeChange, hv2, hv1]

/-- Witness for C8: recording PUT then DELETE at x leaves one Change with
    action DELETE. -/
theorem claim_C8_witness :
    (recordChange (recordChange ([] : List ChangeRec) (pth "x") { action := some "PUT" })
        (pth "x") { action := some "DELETE" }).countP
      (fun c => decide (c.path = pth "x")) = 1 ∧
    (kfind (fun c => c.path)
        (recordChange (recordChange ([] : List ChangeRec) (pth "x") { action := some "PUT" })
          (pth "x") { action := some "DELETE" }) (pth "x")).bind (fun c => c.action) =
      some "DELETE" := by
  have h := claim_C8_recordChange_merges [] (pth "x") { action := some "PUT" }
    { action := some "DELETE" } (by decide)
  exact ⟨h.1, h.2.1 "DELETE" rfl⟩

/-- Claim C9: after setConflict the stored conflict has no resolution;
    resolve with "remote" or "local" records that resolution on the stored
    conflict via recordChange; resolve with any other value throws before
    any write. -/
theorem claim_C9_setConflict_resolve (cs : List ChangeRec) (p : JPath)
    (attrs : ConflictAttrs) (hres : attrs.resolution = none)
    (r : String) (hr1 : r ≠ "remote") (hr2 : r ≠ "local") :
    (kfind (fun c => c.path) (setConflict cs p attrs) p).bind
      (fun c => c.conflict.bind (fun a => a.resolution)) = none ∧
    (∀ res : String, res = "remote" ∨ res = "local" →
      resolveConflict (setConflict cs p attrs) p attrs res =
        .ok (recordChange (setConflict cs p attrs) p
          { conflict := some { attrs with resolution := some res } }) ∧
      (kfind (fun c => c.path)
          (recordChange (setConflict cs p attrs) p
            { conflict := some { attrs with resolution := some res } }) p).bind
        (fun c => c.conflict.bind (fun a => a.resolution)) = some res) ∧
    resolveConflict (setConflict cs p attrs) p attrs r =
      .error ("Invalid resolution: " ++ r) := by
  refine ⟨?_, ?_, ?_⟩
  · rw [setConflict, kfind_recordChange_self]
    simp [mergeChange, hres]
  · intro res hok
    constructor
    · rw [resolveConflict, if_pos hok]
    · rw [kfind_recordChange_self]
      simp [mergeChange]
  · rw [resolveConflict, if_neg (fun hc => hc.elim hr1 hr2)]

/-- Witness for C9 with a concrete conflict at x: resolve "bogus" fails and
    the stored resolution stays unset; resolve "local" records it. -/
theorem claim_C9_witness :
    (kfind (fun c => c.path)
        (setConflict [] (pth "x")
          { localAction := some "PUT", remoteAction := some "DELETE" }) (pth "x")).bind
      (fun c => c.conflict.bind (fun a => a.resolution)) = none ∧
    resolveConflict
        (setConflict [] (pth "x")
          { localAction := some "PUT", remoteAction := some "DELETE" }) (pth "x")
        { localAction := some "PUT", remoteAction := some "DELETE" } "local" =
      .ok (recordChange
        (setConflict [] (pth "x")
          { localAction := some "PUT", remoteAction := some "DELETE" }) (pth "x")
        { conflict := some { localAction := some "PUT", remoteAction := some "DELETE",
                             resolution := some "local" } }) ∧
    resolveConflict
        (setConflict [] (pth "x")
          { localAction := some "PUT", remoteAction := some "DELETE" }) (pth "x")
        { localAction := some "PUT", remoteAction := some "DELETE" } "bogus" =
      .error ("Invalid resolution: " ++ "bogus") := by
  have h := claim_C9_setConflict_resolve [] (pth "x")
    { localAction := some "PUT", remoteAction := some "DELETE" } rfl "bogus"
    (by decide) (by decide)
  exact ⟨h.1, (h.2.1 "local" (Or.inr rfl)).1, h.2.2⟩

/-- Claim C6: with the changes store in ascending key order (as the
    IndexedDB object store always is), changesBelow returns exactly the
    Change records whose key string starts with the given path — plain
    string-prefix match, each record once, in ascending key order. -/
theorem claim_C6_changesBelow (cs : List ChangeRec) (p : JPath)
    (hsorted : List.Pairwise (fun a b => lexLt a.path b.path = true) cs) :
    changesBelow cs p = cs.filter (fun c => substrEq p c.path) ∧
    List.Pairwise (fun a b => lexLt a.path b.path = true) (changesBelow cs p) := by
  have h1 := changesBelow_eq_filter_aux cs p hsorted
  refine ⟨h1, ?_⟩
  rw [h1]
  exact hsorted.filter _

/-- Witness for C6 on the worked example with changes at a/x, a/y/z, b/w. -/
theorem claim_C6_witness :
    changesBelow demoChanges (pth "a/") =
      demoChanges.filter (fun c => substrEq (pth "a/") c.path) ∧
    List.Pairwise (fun a b => lexLt a.path b.path = true)
      (changesBelow demoChanges (pth "a/")) :=
  claim_C6_changesBelow demoChanges (pth "a/") (by decide)

/-- Sanity: the worked example returns exactly the two entries below a/. -/
example : changesBelow demoChanges (pth "a/") =
    [{ path := pth "a/x", action := some "PUT" },
     { path := pth "a/y/z", action := some "DELETE" }] := by
  decide

end IndexedDB

namespace getputdelete

/-- Claim C3 (amended): for every defined value that is neither a string nor
    an ArrayBuffer, set(url, value, mimeType, token) synchronously invokes
    the callback with an error — but, the guard having no return, the PUT
    request is still issued; an undefined value instead issues a DELETE
    (counterexample to the claim as stated, which covers undefined too and
    asserts no request at all is issued). -/
theorem claim_C3_set_invalid_value (url : String) (v : JSVal)
    (mt tok : Option String) (h1 : v ≠ .undef) (h2 : isString v = false)
    (h3 : isArrayBuffer v = false) :
    (set url v mt tok).errors =
      ["invalid value given to PUT, only strings allowed, got " ++ jsTypeof v] ∧
    (set url v mt tok).requests = [doCall "PUT" url v mt tok] := by
  cases v with
  | undef => exact absurd rfl h1
  | nullv => exact ⟨rfl, rfl⟩
  | str s => simp [isString] at h2
  | buffer bs => simp [isArrayBuffer] at h3
  | num n => exact ⟨rfl, rfl⟩
  | other => exact ⟨rfl, rfl⟩

/-- Counterexample to C3 as stated: undefined is neither a string nor an
    ArrayBuffer, yet set issues a DELETE request with no error; and for the
    number 42 the error is reported but a PUT request is still issued. -/
theorem claim_C3_cex :
    isString JSVal.undef = false ∧ isArrayBuffer JSVal.undef = false ∧
    (set "u" .undef (some "text/plain") (some "tok")).errors = [] ∧
    (set "u" .undef (some "text/plain") (some "tok")).requests =
      [doCall "DELETE" "u" .nullv none (some "tok")] ∧
    (set "u" (.num 42) (some "text/plain") (some "tok")).errors ≠ [] ∧
    (set "u" (.num 42) (some "text/plain") (some "tok")).requests =
      [doCall "PUT" "u" (.num 42) (some "text/plain") (some "tok")] := by
  decide

/-- Witness for the amended C3 at the concrete value 42. -/
theorem claim_C3_witness :
    (set "u" (.num 42) (some "text/plain") (some "tok")).errors =
      ["invalid value given to PUT, only strings allowed, got " ++
        jsTypeof (JSVal.num 42)] ∧
    (set "u" (.num 42) (some "text/plain") (some "tok")).requests =
      [doCall "PUT" "u" (.num 42) (some "text/plain") (some "tok")] :=
  claim_C3_set_invalid_value "u" (.num 42) (some "text/plain") (some "tok")
    (by decide) rfl rfl

end getputdelete
